import Mathlib

/-!
Shallow embedding of the reach-ui tabs widget core
(src/packages/tabs/src/index.tsx): the selection controller
(`onSelectTab`, `getSelectedIndex`), the keyboard navigator
(`getFocusIndices`, `handleKeyDown`), the layout-time correction of a
disabled selection in `TabList`, the focus-restoration update effect in
`Tab`, and the id/ARIA attribute wiring of `Tab` and `TabPanel`.

Registered tab elements are modelled as abstract `Nat` identifiers: the
source compares elements only with `===`.  JavaScript out-of-range array
reads yield `undefined`, modelled as `Option.none`; reading a property of
`undefined` throws a `TypeError`, modelled by returning `none` from the
enclosing operation.
-/

namespace ReachTabs

/-- One entry of the tabs descendant registry: the registered DOM element
(abstract id) and its `disabled` flag. -/
structure Descendant where
  element : Nat
  disabled : Bool
deriving DecidableEq, Repr

/-- JS `descendants[i]` for a possibly negative index: `undefined` (`none`)
when out of range. -/
def dsGet? (ds : List Descendant) (i : Int) : Option Descendant :=
  if i < 0 then none else ds.get? i.toNat

/-- JS `l[i]` on an element array with a possibly negative index. -/
def elemAt? (l : List Nat) (i : Int) : Option Nat :=
  if i < 0 then none else l.get? i.toNat

/-- `focusNodes` from the descendants context: the elements of the
non-disabled descendants, in registry order. -/
def focusNodes (ds : List Descendant) : List Nat :=
  (ds.filter (fun d => !d.disabled)).map (fun d => d.element)

/-- JS `Array.prototype.findIndex` specialised to element identity:
index of the first occurrence, `-1` when absent. -/
def findIndexJS : List Nat → Nat → Int
  | [], _ => -1
  | x :: rest, e =>
    if x = e then 0
    else
      let r := findIndexJS rest e
      if r = -1 then -1 else r + 1

/-- The source's `for` loop in `getFocusIndices` assigns `v = n` for every
`n` whose element matches the target, so the final value is the LAST
matching raw index, `-1` when no index matches.  A comparison against an
out-of-range read (`target = none`) never matches, as `element ===
undefined` is false for a DOM element. -/
def lastMatchFrom (target : Option Nat) : List Descendant → Nat → Int
  | [], _ => -1
  | d :: rest, k =>
    let r := lastMatchFrom target rest (k + 1)
    if r ≠ -1 then r
    else if some d.element = target then (k : Int) else -1

/-- Result of `getFocusIndices`. -/
structure FocusIndices where
  first : Int
  last : Int
  prev : Int
  next : Int
deriving DecidableEq, Repr

/-- Body of `getFocusIndices` once `descendants[selectedIndex].element`
has been read successfully. -/
def getFocusIndicesCore (ds : List Descendant) (selElem : Nat) : FocusIndices :=
  let fns := focusNodes ds
  let selectedFocusIndex : Int := findIndexJS fns selElem
  let first := lastMatchFrom (elemAt? fns 0) ds 0
  let last := lastMatchFrom (elemAt? fns ((fns.length : Int) - 1)) ds 0
  let prev := lastMatchFrom (elemAt? fns (selectedFocusIndex - 1)) ds 0
  let next := lastMatchFrom (elemAt? fns (selectedFocusIndex + 1)) ds 0
  { first := first
    last := last
    prev := if prev = -1 then last else prev
    next := if next = -1 then first else next }

/-- `getFocusIndices` from `TabList`.  The read
`descendants[selectedIndex].element` happens inside the `findIndex`
callback, so it is evaluated once per focus node: when `selectedIndex`
is out of range and at least one focus node exists, the first callback
invocation throws a `TypeError` (modelled `none`); with zero focus
nodes the callback never runs, the search simply fails
(`selectedFocusIndex = -1`), and the loop — all of whose comparisons
are against `undefined` reads of the empty array — matches nothing, so
the function returns `{-1, -1, -1, -1}` normally. -/
def getFocusIndices (ds : List Descendant) (selectedIndex : Int) : Option FocusIndices :=
  match dsGet? ds selectedIndex with
  | none =>
    if focusNodes ds = [] then
      some { first := -1, last := -1, prev := -1, next := -1 }
    else none
  | some d => some (getFocusIndicesCore ds d.element)

/-- Observable outcome of `handleKeyDown`: whether `event.preventDefault()`
ran, which index (if any) was passed to `onSelectTab`, and whether
`onFocusPanel` was requested. -/
structure KeyDownResult where
  preventedDefault : Bool
  selectRequest : Option Int
  focusPanelRequested : Bool
deriving DecidableEq, Repr

/-- `handleKeyDown` from `TabList`.  Non-navigation keys return before
`getFocusIndices` is consulted; the five navigation keys consult it first
(so an out-of-range selected index throws, `none`), then dispatch. -/
def handleKeyDown (ds : List Descendant) (selectedIndex : Int) (key : String) :
    Option KeyDownResult :=
  if key ≠ "ArrowLeft" ∧ key ≠ "ArrowRight" ∧ key ≠ "ArrowDown" ∧
      key ≠ "Home" ∧ key ≠ "End" then
    some { preventedDefault := false, selectRequest := none, focusPanelRequested := false }
  else
    match getFocusIndices ds selectedIndex with
    | none => none
    | some fi =>
      if key = "ArrowRight" then
        some { preventedDefault := false, selectRequest := some fi.next,
               focusPanelRequested := false }
      else if key = "ArrowLeft" then
        some { preventedDefault := false, selectRequest := some fi.prev,
               focusPanelRequested := false }
      else if key = "ArrowDown" then
        some { preventedDefault := true, selectRequest := none,
               focusPanelRequested := true }
      else if key = "Home" then
        some { preventedDefault := false, selectRequest := some fi.first,
               focusPanelRequested := false }
      else
        some { preventedDefault := false, selectRequest := some fi.last,
               focusPanelRequested := false }

/-- Configuration of one `Tabs` instance, fixed over its lifetime. -/
structure TabsConfig where
  isControlled : Bool
  readOnly : Bool
  hasOnChange : Bool
deriving DecidableEq, Repr

/-- Mutable state of one `Tabs` instance: the internal `selectedIndex`
(`useState`), the `userInteractedRef` flag, and the accumulated arguments
of the `onChange` invocations. -/
structure TabsState where
  selectedIndex : Int
  userInteracted : Bool
  onChangeCalls : List Int
deriving DecidableEq, Repr

/-- `onSelectTab` from the `Tabs` context: `noop` when `readOnly`;
otherwise it sets `userInteractedRef.current = true`, invokes `onChange`
(when provided) with the index, and, when uncontrolled, also sets the
internal `selectedIndex`. -/
def onSelectTab (cfg : TabsConfig) (s : TabsState) (index : Int) : TabsState :=
  if cfg.readOnly then s
  else
    { selectedIndex := if cfg.isControlled then s.selectedIndex else index
      userInteracted := true
      onChangeCalls := if cfg.hasOnChange then s.onChangeCalls ++ [index] else s.onChangeCalls }

/-- The context's `selectedIndex`: the controlled prop when controlled,
the internal state when uncontrolled. -/
def getSelectedIndex (cfg : TabsConfig) (controlledIndex : Int) (s : TabsState) : Int :=
  if cfg.isControlled then controlledIndex else s.selectedIndex

/-- Outcome of one run opportunity of `Tab`'s `useUpdateEffect`. -/
structure FocusResult where
  focusMoved : Bool
  userInteractedAfter : Bool
deriving DecidableEq, Repr

/-- `Tab`'s `useUpdateEffect` with dependency `[isSelected]`: it fires only
when `isSelected` changed since the previous render (and never on mount);
when it fires and the tab is selected, has a mounted element, and
`userInteractedRef.current` is set, it clears the flag and focuses the
tab's element. -/
def tabFocusEffect (wasSelected isSelected hasElement userInteracted : Bool) : FocusResult :=
  if wasSelected ≠ isSelected then
    if isSelected && hasElement && userInteracted then
      { focusMoved := true, userInteractedAfter := false }
    else
      { focusMoved := false, userInteractedAfter := userInteracted }
  else
    { focusMoved := false, userInteractedAfter := userInteracted }

/-- `TabList`'s `useIsomorphicLayoutEffect`: when uncontrolled and the
descendant at the selected index exists and is disabled, override the
selection with `getFocusIndices().next`; otherwise leave it alone.
Returns the selected index after the effect. -/
def tabListLayoutEffect (isControlled : Bool) (ds : List Descendant) (selectedIndex : Int) : Int :=
  match dsGet? ds selectedIndex with
  | some d =>
    if ¬isControlled ∧ d.disabled then (getFocusIndicesCore ds d.element).next
    else selectedIndex
  | none => selectedIndex

/-- Modelled from the spec: the id helper `makeId` lives in the
`@reach/utils` collaborator, which is not under `src/`; §6 fixes the
identifier contract bit-exact as tab id = `{groupId}-tab-{index}` and
panel id = `{groupId}-panel-{index}`, so `makeId` joins its parts with a
hyphen. -/
def makeId (base segment : String) (index : Nat) : String :=
  base ++ "-" ++ segment ++ "-" ++ toString index

/-- The accessibility attributes `Tab` renders. -/
structure TabAttrs where
  id : String
  ariaControls : String
  ariaSelected : Bool
  tabIndex : Int
deriving DecidableEq, Repr

/-- Attributes of the tab at `index` given the current selected index:
`aria-controls = makeId(tabsId, "panel", index)`,
`id = makeId(tabsId, "tab", index)`, `tabIndex = isSelected ? 0 : -1`. -/
def tabAttrs (tabsId : String) (index : Nat) (selectedIndex : Int) : TabAttrs :=
  let isSelected : Bool := (index : Int) = selectedIndex
  { id := makeId tabsId "tab" index
    ariaControls := makeId tabsId "panel" index
    ariaSelected := isSelected
    tabIndex := if isSelected then 0 else -1 }

/-- The accessibility attributes `TabPanel` renders. -/
structure TabPanelAttrs where
  id : String
  ariaLabelledby : String
  hidden : Bool
  tabIndex : Int
deriving DecidableEq, Repr

/-- Attributes of the panel at `index`:
`id = makeId(tabsId, "panel", index)`,
`aria-labelledby = makeId(tabsId, "tab", index)`,
`hidden = ¬isSelected`, `tabIndex = -1`. -/
def tabPanelAttrs (tabsId : String) (index : Nat) (selectedIndex : Int) : TabPanelAttrs :=
  let isSelected : Bool := (index : Int) = selectedIndex
  { id := makeId tabsId "panel" index
    ariaLabelledby := makeId tabsId "tab" index
    hidden := !isSelected
    tabIndex := -1 }

/-- Raw indices of the enabled descendants, in order (spec §4.3: "the list
of non-disabled tab indices in order"), with the offset generalised for
recursion. -/
def enabledIdxFrom : List Descendant → Nat → List Nat
  | [], _ => []
  | d :: rest, k =>
    if d.disabled then enabledIdxFrom rest (k + 1)
    else k :: enabledIdxFrom rest (k + 1)

/-- Raw indices of the enabled descendants, in order. -/
def enabledIdx (ds : List Descendant) : List Nat :=
  enabledIdxFrom ds 0

/-- Element of the descendant at raw index `n` (proof-side helper;
defaults to `0` out of range, used only at in-range indices). -/
def elemAtD (ds : List Descendant) (n : Nat) : Nat :=
  match ds.get? n with
  | some d => d.element
  | none => 0

/-- Spec §4.3, stated on indices: `first` = raw index of the first
enabled-subset entry, `-1` when there is none. -/
def specFirst (ds : List Descendant) : Int :=
  match (enabledIdx ds).head? with
  | some n => (n : Int)
  | none => -1

/-- Spec §4.3: `last` = raw index of the last enabled-subset entry. -/
def specLast (ds : List Descendant) : Int :=
  match (enabledIdx ds).getLast? with
  | some n => (n : Int)
  | none => -1

/-- Spec §4.3: `next` = raw index of the enabled-subset entry immediately
after the current one; if none (current last, or not found), wrap to
`first`. -/
def specNext (ds : List Descendant) (sel : Nat) : Int :=
  let k := findIndexJS (enabledIdx ds) sel
  if k = -1 then specFirst ds
  else
    match elemAt? (enabledIdx ds) (k + 1) with
    | some n => (n : Int)
    | none => specFirst ds

/-- Spec §4.3: `prev` = raw index of the enabled-subset entry immediately
before the current one; if none (current is first or not found), wrap to
`last`. -/
def specPrev (ds : List Descendant) (sel : Nat) : Int :=
  let k := findIndexJS (enabledIdx ds) sel
  if k ≤ 0 then specLast ds
  else
    match elemAt? (enabledIdx ds) (k - 1) with
    | some n => (n : Int)
    | none => specLast ds

/-! ## Claim theorems: selection controller -/

/-- C1: for every non-readOnly instance, `requestSelect(i)` (`onSelectTab`)
invokes `onChange(i)` exactly once (the call list grows by exactly `[i]`);
when uncontrolled, `getSelectedIndex()` afterwards equals `i`; when
controlled, the internal selected index is left untouched. -/
theorem C1_requestSelect (cfg : TabsConfig) (s : TabsState) (ci i : Int)
    (hro : cfg.readOnly = false) (hoc : cfg.hasOnChange = true) :
    (onSelectTab cfg s i).onChangeCalls = s.onChangeCalls ++ [i] ∧
    (cfg.isControlled = false → getSelectedIndex cfg ci (onSelectTab cfg s i) = i) ∧
    (cfg.isControlled = true → (onSelectTab cfg s i).selectedIndex = s.selectedIndex) := by
  refine ⟨?_, ?_, ?_⟩
  · simp [onSelectTab, hro, hoc]
  · intro hc; simp [onSelectTab, getSelectedIndex, hro, hc]
  · intro hc; simp [onSelectTab, hro, hc]

/-- Witness for C1 at a concrete uncontrolled instance. -/
theorem C1_witness :
    ((⟨false, false, true⟩ : TabsConfig).readOnly = false ∧
      (⟨false, false, true⟩ : TabsConfig).hasOnChange = true) ∧
    ((onSelectTab ⟨false, false, true⟩ ⟨0, false, []⟩ 2).onChangeCalls = [] ++ [2] ∧
      ((⟨false, false, true⟩ : TabsConfig).isControlled = false →
        getSelectedIndex ⟨false, false, true⟩ 0 (onSelectTab ⟨false, false, true⟩ ⟨0, false, []⟩ 2) = 2) ∧
      ((⟨false, false, true⟩ : TabsConfig).isControlled = true →
        (onSelectTab ⟨false, false, true⟩ ⟨0, false, []⟩ 2).selectedIndex = 0)) :=
  ⟨by decide, C1_requestSelect ⟨false, false, true⟩ ⟨0, false, []⟩ 0 2 rfl rfl⟩

/-- C6: while `readOnly = true`, `onSelectTab` is `noop`: every selection
request leaves the state (selected index, flag, and the `onChange` call
list) exactly unchanged. -/
theorem C6_readOnly_noop (cfg : TabsConfig) (s : TabsState) (i : Int)
    (hro : cfg.readOnly = true) :
    onSelectTab cfg s i = s := by
  simp [onSelectTab, hro]

/-- Witness for C6 at a concrete read-only instance. -/
theorem C6_witness :
    ((⟨false, true, true⟩ : TabsConfig).readOnly = true) ∧
    onSelectTab ⟨false, true, true⟩ ⟨0, false, []⟩ 1 = ⟨0, false, []⟩ :=
  ⟨rfl, C6_readOnly_noop ⟨false, true, true⟩ ⟨0, false, []⟩ 1 rfl⟩

/-- C4: a user-initiated select request that changes the selection (here:
uncontrolled, target differs from the current index) sets the
`userInteracted` flag; the newly selected tab's update effect then moves
focus exactly once and clears the flag; with the flag cleared — in
particular for any purely programmatic change — no run of the effect
moves focus. -/
theorem C4_focus_restoration (cfg : TabsConfig) (s : TabsState) (i : Int)
    (hro : cfg.readOnly = false) (hc : cfg.isControlled = false)
    (hne : s.selectedIndex ≠ i) :
    (onSelectTab cfg s i).userInteracted = true ∧
    (onSelectTab cfg s i).selectedIndex = i ∧
    tabFocusEffect (decide (s.selectedIndex = i))
        (decide ((onSelectTab cfg s i).selectedIndex = i)) true
        (onSelectTab cfg s i).userInteracted =
      { focusMoved := true, userInteractedAfter := false } ∧
    (∀ wasSel isSel hasEl : Bool,
      tabFocusEffect wasSel isSel hasEl false =
        { focusMoved := false, userInteractedAfter := false }) := by
  refine ⟨by simp [onSelectTab, hro], by simp [onSelectTab, hro, hc], ?_, by decide⟩
  simp [onSelectTab, hro, hc, tabFocusEffect, hne]

/-- Witness for C4 at a concrete uncontrolled instance moving 0 → 1. -/
theorem C4_witness :
    ((⟨false, false, true⟩ : TabsConfig).readOnly = false ∧
      (⟨false, false, true⟩ : TabsConfig).isControlled = false ∧
      (⟨0, false, []⟩ : TabsState).selectedIndex ≠ 1) ∧
    ((onSelectTab ⟨false, false, true⟩ ⟨0, false, []⟩ 1).userInteracted = true ∧
      (onSelectTab ⟨false, false, true⟩ ⟨0, false, []⟩ 1).selectedIndex = 1 ∧
      tabFocusEffect (decide ((⟨0, false, []⟩ : TabsState).selectedIndex = 1))
          (decide ((onSelectTab ⟨false, false, true⟩ ⟨0, false, []⟩ 1).selectedIndex = 1)) true
          (onSelectTab ⟨false, false, true⟩ ⟨0, false, []⟩ 1).userInteracted =
        { focusMoved := true, userInteractedAfter := false } ∧
      (∀ wasSel isSel hasEl : Bool,
        tabFocusEffect wasSel isSel hasEl false =
          { focusMoved := false, userInteractedAfter := false })) :=
  ⟨by decide, C4_focus_restoration ⟨false, false, true⟩ ⟨0, false, []⟩ 1 rfl rfl (by decide)⟩

/-- C10: a user-initiated select request targeting the already selected
index sets the `userInteracted` flag but does not change the selected
index, so the selected tab's `isSelected` dependency is unchanged and the
update effect does not fire: no focus moves and the flag stays set; the
next change that newly selects a different tab — even programmatic —
finds the flag set and moves focus to it. -/
theorem C10_same_index_select (cfg : TabsConfig) (s : TabsState) (i : Int)
    (hro : cfg.readOnly = false) (hsel : s.selectedIndex = i) :
    (onSelectTab cfg s i).userInteracted = true ∧
    (onSelectTab cfg s i).selectedIndex = s.selectedIndex ∧
    tabFocusEffect (decide (s.selectedIndex = i))
        (decide ((onSelectTab cfg s i).selectedIndex = i)) true
        (onSelectTab cfg s i).userInteracted =
      { focusMoved := false, userInteractedAfter := true } ∧
    tabFocusEffect false true true true =
      { focusMoved := true, userInteractedAfter := false } := by
  have hsel' : (onSelectTab cfg s i).selectedIndex = s.selectedIndex := by
    cases hc : cfg.isControlled <;> simp [onSelectTab, hro, hc, hsel]
  refine ⟨by simp [onSelectTab, hro], hsel', ?_, by decide⟩
  rw [hsel']
  simp [tabFocusEffect, hsel, onSelectTab, hro]

/-- Witness for C10: re-selecting index 0 while 0 is selected. -/
theorem C10_witness :
    ((⟨false, false, true⟩ : TabsConfig).readOnly = false ∧
      (⟨0, false, []⟩ : TabsState).selectedIndex = 0) ∧
    ((onSelectTab ⟨false, false, true⟩ ⟨0, false, []⟩ 0).userInteracted = true ∧
      (onSelectTab ⟨false, false, true⟩ ⟨0, false, []⟩ 0).selectedIndex =
        (⟨0, false, []⟩ : TabsState).selectedIndex ∧
      tabFocusEffect (decide ((⟨0, false, []⟩ : TabsState).selectedIndex = 0))
          (decide ((onSelectTab ⟨false, false, true⟩ ⟨0, false, []⟩ 0).selectedIndex = 0)) true
          (onSelectTab ⟨false, false, true⟩ ⟨0, false, []⟩ 0).userInteracted =
        { focusMoved := false, userInteractedAfter := true } ∧
      tabFocusEffect false true true true =
        { focusMoved := true, userInteractedAfter := false }) :=
  ⟨by decide, C10_same_index_select ⟨false, false, true⟩ ⟨0, false, []⟩ 0 rfl rfl⟩

/-! ## Claim theorems: identifiers and key handling -/

theorem makeId_eq (g seg : String) (i : Nat) :
    makeId g seg i = g ++ ("-" ++ seg ++ ("-" ++ toString i)) := by
  simp [makeId, String.append_assoc]

/-- C8: for every group id `g` and index `i`, the tab id is
`{g}-tab-{i}`, the panel id is `{g}-panel-{i}`, the tab's
`aria-controls` equals the panel id at the same index, the panel's
`aria-labelledby` equals the tab id at the same index, the tab's roving
tabindex is `0` when selected and `-1` otherwise, and the panel is
hidden exactly when not selected. -/
theorem C8_id_attribute_contract (g : String) (i : Nat) (sel : Int) :
    (tabAttrs g i sel).id = g ++ "-tab-" ++ toString i ∧
    (tabPanelAttrs g i sel).id = g ++ "-panel-" ++ toString i ∧
    (tabAttrs g i sel).ariaControls = (tabPanelAttrs g i sel).id ∧
    (tabPanelAttrs g i sel).ariaLabelledby = (tabAttrs g i sel).id ∧
    ((i : Int) = sel →
      (tabAttrs g i sel).tabIndex = 0 ∧ (tabPanelAttrs g i sel).hidden = false) ∧
    ((i : Int) ≠ sel →
      (tabAttrs g i sel).tabIndex = -1 ∧ (tabPanelAttrs g i sel).hidden = true) := by
  have htab : makeId g "tab" i = g ++ "-tab-" ++ toString i := by
    show (((g ++ "-") ++ "tab") ++ "-") ++ toString i = (g ++ "-tab-") ++ toString i
    rw [String.append_assoc g "-" "tab",
      show ("-" : String) ++ "tab" = "-tab" from by decide,
      String.append_assoc g "-tab" "-",
      show ("-tab" : String) ++ "-" = "-tab-" from by decide]
  have hpanel : makeId g "panel" i = g ++ "-panel-" ++ toString i := by
    show (((g ++ "-") ++ "panel") ++ "-") ++ toString i = (g ++ "-panel-") ++ toString i
    rw [String.append_assoc g "-" "panel",
      show ("-" : String) ++ "panel" = "-panel" from by decide,
      String.append_assoc g "-panel" "-",
      show ("-panel" : String) ++ "-" = "-panel-" from by decide]
  refine ⟨htab, hpanel, ?_, ?_, ?_, ?_⟩
  · rfl
  · rfl
  · intro h; simp [tabAttrs, tabPanelAttrs, h]
  · intro h; simp [tabAttrs, tabPanelAttrs, h]

/-- Witness for C8 at the spec's scenario: group id `tabs-1`, index 0. -/
theorem C8_witness :
    ((tabAttrs "tabs-1" 0 0).id = "tabs-1" ++ "-tab-" ++ toString 0 ∧
      (tabPanelAttrs "tabs-1" 0 0).id = "tabs-1" ++ "-panel-" ++ toString 0 ∧
      (tabAttrs "tabs-1" 0 0).ariaControls = (tabPanelAttrs "tabs-1" 0 0).id ∧
      (tabPanelAttrs "tabs-1" 0 0).ariaLabelledby = (tabAttrs "tabs-1" 0 0).id ∧
      (((0 : Nat) : Int) = 0 →
        (tabAttrs "tabs-1" 0 0).tabIndex = 0 ∧ (tabPanelAttrs "tabs-1" 0 0).hidden = false) ∧
      (((0 : Nat) : Int) ≠ 0 →
        (tabAttrs "tabs-1" 0 0).tabIndex = -1 ∧ (tabPanelAttrs "tabs-1" 0 0).hidden = true)) ∧
    (tabAttrs "tabs-1" 0 0).id = "tabs-1-tab-0" ∧
    (tabAttrs "tabs-1" 2 0).ariaControls = "tabs-1-panel-2" ∧
    (tabPanelAttrs "tabs-1" 1 0).hidden = true :=
  ⟨C8_id_attribute_contract "tabs-1" 0 0, by decide, by decide, by decide⟩

/-- C9: a non-navigation key is ignored by `handleKeyDown`: no default
suppressed, no selection request, no panel-focus request, and
`getFocusIndices` is not even consulted; `ArrowDown` (with the selected
descendant readable) suppresses the default, requests panel focus, and
requests no selection change. -/
theorem C9_arrowdown_and_other_keys (ds : List Descendant) (sel : Int) (key : String) :
    (key ≠ "ArrowLeft" ∧ key ≠ "ArrowRight" ∧ key ≠ "ArrowDown" ∧
        key ≠ "Home" ∧ key ≠ "End" →
      handleKeyDown ds sel key =
        some { preventedDefault := false, selectRequest := none, focusPanelRequested := false }) ∧
    (dsGet? ds sel ≠ none →
      handleKeyDown ds sel "ArrowDown" =
        some { preventedDefault := true, selectRequest := none, focusPanelRequested := true }) := by
  constructor
  · intro h
    unfold handleKeyDown
    rw [if_pos h]
  · intro h
    rcases heq : dsGet? ds sel with _ | d
    · exact absurd heq h
    · simp [handleKeyDown, getFocusIndices, heq]

/-- Witness for C9: the letter key `a` is ignored; `ArrowDown` on a
one-tab widget focuses the panel. -/
theorem C9_witness :
    (("a" : String) ≠ "ArrowLeft" ∧ ("a" : String) ≠ "ArrowRight" ∧
        ("a" : String) ≠ "ArrowDown" ∧ ("a" : String) ≠ "Home" ∧ ("a" : String) ≠ "End" →
      handleKeyDown [⟨7, false⟩] 0 "a" =
        some { preventedDefault := false, selectRequest := none, focusPanelRequested := false }) ∧
    (dsGet? [(⟨7, false⟩ : Descendant)] 0 ≠ none →
      handleKeyDown [⟨7, false⟩] 0 "ArrowDown" =
        some { preventedDefault := true, selectRequest := none, focusPanelRequested := true }) :=
  C9_arrowdown_and_other_keys [⟨7, false⟩] 0 "a"

/-! ## Claim theorems: degenerate registries -/

/-- C5 as stated is false: with a registry whose single tab is disabled
(zero enabled entries) and the selected index in range, an `ArrowRight`
press is not a no-op — `handleKeyDown` issues a selection request with
index `-1` (so `onSelectTab(-1)` runs, invoking `onChange(-1)`). -/
theorem C5_counterexample :
    (∀ d ∈ [(⟨5, true⟩ : Descendant)], d.disabled = true) ∧
    handleKeyDown [⟨5, true⟩] 0 "ArrowRight" =
      some { preventedDefault := false, selectRequest := some (-1),
             focusPanelRequested := false } := by
  decide

theorem lastMatchFrom_of_none (ds : List Descendant) :
    ∀ k, lastMatchFrom none ds k = -1 := by
  induction ds with
  | nil => intro k; rfl
  | cons d rest ih => intro k; simp [lastMatchFrom, ih]

theorem elemAt?_nil (i : Int) : elemAt? [] i = none := by
  unfold elemAt?
  split <;> simp

theorem focusNodes_eq_nil (ds : List Descendant)
    (h : ∀ d ∈ ds, d.disabled = true) : focusNodes ds = [] := by
  unfold focusNodes
  rw [List.filter_eq_nil_iff.mpr (fun d hd => by simp [h d hd])]
  rfl

theorem getFocusIndicesCore_no_enabled (ds : List Descendant) (e : Nat)
    (h : focusNodes ds = []) :
    getFocusIndicesCore ds e = ⟨-1, -1, -1, -1⟩ := by
  unfold getFocusIndicesCore
  rw [h]
  simp [elemAt?_nil, lastMatchFrom_of_none, findIndexJS]

/-- C5 amended: with zero enabled entries (and the selected index in
range, so reading the selected descendant succeeds), the four
selection-navigation keys are not no-ops: each issues a selection request
with index `-1`; no exception is raised by the press itself, and the
default is not suppressed. -/
theorem C5_zero_enabled_requests_minus_one (ds : List Descendant) (sel : Int) (key : String)
    (hall : ∀ d ∈ ds, d.disabled = true) (hin : dsGet? ds sel ≠ none)
    (hkey : key = "ArrowLeft" ∨ key = "ArrowRight" ∨ key = "Home" ∨ key = "End") :
    handleKeyDown ds sel key =
      some { preventedDefault := false, selectRequest := some (-1),
             focusPanelRequested := false } := by
  rcases heq : dsGet? ds sel with _ | d
  · exact absurd heq hin
  · have hcore : getFocusIndicesCore ds d.element = ⟨-1, -1, -1, -1⟩ :=
      getFocusIndicesCore_no_enabled ds d.element (focusNodes_eq_nil ds hall)
    rcases hkey with h | h | h | h <;> subst h <;>
      simp [handleKeyDown, getFocusIndices, heq, hcore]

/-- Witness for C5's amended statement: one disabled tab, `Home` key. -/
theorem C5_amended_witness :
    ((∀ d ∈ [(⟨5, true⟩ : Descendant)], d.disabled = true) ∧
      dsGet? [(⟨5, true⟩ : Descendant)] 0 ≠ none ∧
      (("Home" : String) = "ArrowLeft" ∨ ("Home" : String) = "ArrowRight" ∨
        ("Home" : String) = "Home" ∨ ("Home" : String) = "End")) ∧
    handleKeyDown [⟨5, true⟩] 0 "Home" =
      some { preventedDefault := false, selectRequest := some (-1),
             focusPanelRequested := false } :=
  ⟨⟨by decide, by decide, by decide⟩,
    C5_zero_enabled_requests_minus_one [⟨5, true⟩] 0 "Home" (by decide) (by decide)
      (by decide)⟩

/-- C7 as stated is false: with one enabled tab and a stale selected
index `1` (exceeding the registry length), an `ArrowRight` press makes
the `findIndex` callback — invoked because `focusNodes` is nonempty —
read `.element` of `descendants[1] = undefined`, which throws a
`TypeError` (modelled `none`) out of the key handler: an exception does
cross the widget boundary. -/
theorem C7_counterexample :
    handleKeyDown [⟨0, false⟩] 1 "ArrowRight" = none := by
  decide

theorem getFocusIndices_isSome_of_inrange {ds : List Descendant} {sel : Int}
    (h : dsGet? ds sel ≠ none) : (getFocusIndices ds sel).isSome = true := by
  unfold getFocusIndices
  rcases heq : dsGet? ds sel with _ | d
  · exact absurd heq h
  · rfl

theorem getFocusIndices_isSome_of_no_enabled {ds : List Descendant} {sel : Int}
    (hfn : focusNodes ds = []) : (getFocusIndices ds sel).isSome = true := by
  unfold getFocusIndices
  rcases heq : dsGet? ds sel with _ | d
  · show (if focusNodes ds = [] then
        some ({ first := -1, last := -1, prev := -1, next := -1 } : FocusIndices)
      else none).isSome = true
    rw [if_pos hfn]
    rfl
  · rfl

theorem handleKeyDown_isSome_of (ds : List Descendant) (sel : Int) (key : String)
    (h : (getFocusIndices ds sel).isSome = true) :
    (handleKeyDown ds sel key).isSome = true := by
  obtain ⟨fi, hg⟩ := Option.isSome_iff_exists.mp h
  unfold handleKeyDown
  split
  · rfl
  · rw [hg]
    simp only [apply_ite Option.isSome]
    split <;> try rfl
    split <;> try rfl
    split <;> try rfl
    split <;> rfl

/-- C7 amended: anomalies are handled without an exception except in one
precise situation.  Whenever the selected descendant is readable,
`handleKeyDown` returns normally on every key; non-navigation keys
return normally regardless of the selected index (the navigator is not
consulted); with zero enabled tabs every key returns normally even when
the selected index is out of range, because the `findIndex` callback
holding the unguarded read is never invoked on an empty array — the
press instead issues `onSelectTab(-1)`.  But a navigation key pressed
while the selected index is out of range and at least one enabled tab
exists throws out of the handler. -/
theorem C7_throw_boundary (ds : List Descendant) (sel : Int) (key : String) :
    (dsGet? ds sel ≠ none → (handleKeyDown ds sel key).isSome = true) ∧
    (key ≠ "ArrowLeft" ∧ key ≠ "ArrowRight" ∧ key ≠ "ArrowDown" ∧
        key ≠ "Home" ∧ key ≠ "End" →
      (handleKeyDown ds sel key).isSome = true) ∧
    (focusNodes ds = [] → (handleKeyDown ds sel key).isSome = true) ∧
    (dsGet? ds sel = none → focusNodes ds ≠ [] →
      (key = "ArrowLeft" ∨ key = "ArrowRight" ∨ key = "ArrowDown" ∨
        key = "Home" ∨ key = "End") →
      handleKeyDown ds sel key = none) := by
  refine ⟨fun h => handleKeyDown_isSome_of ds sel key (getFocusIndices_isSome_of_inrange h),
    ?_, fun hfn => handleKeyDown_isSome_of ds sel key (getFocusIndices_isSome_of_no_enabled hfn),
    ?_⟩
  · intro h
    unfold handleKeyDown
    rw [if_pos h]
    rfl
  · intro hnone hfn hkey
    have hgfi : getFocusIndices ds sel = none := by
      unfold getFocusIndices
      rw [hnone]
      show (if focusNodes ds = [] then
          some ({ first := -1, last := -1, prev := -1, next := -1 } : FocusIndices)
        else none) = none
      rw [if_neg hfn]
    rcases hkey with h | h | h | h | h <;> subst h <;>
      · unfold handleKeyDown
        rw [if_neg (by decide), hgfi]

/-- Witness for C7's amended statement: an in-range press returns
normally; an out-of-range press with zero enabled tabs also returns
normally; an out-of-range press with an enabled tab throws. -/
theorem C7_boundary_witness :
    (dsGet? [(⟨0, false⟩ : Descendant)] 0 ≠ none ∧
      (handleKeyDown [⟨0, false⟩] 0 "ArrowRight").isSome = true) ∧
    (focusNodes [(⟨5, true⟩ : Descendant)] = [] ∧
      (handleKeyDown [⟨5, true⟩] 3 "ArrowRight").isSome = true) ∧
    (dsGet? [(⟨0, false⟩ : Descendant)] 1 = none ∧
      focusNodes [(⟨0, false⟩ : Descendant)] ≠ [] ∧
      handleKeyDown [⟨0, false⟩] 1 "ArrowRight" = none) :=
  ⟨⟨by decide, (C7_throw_boundary [⟨0, false⟩] 0 "ArrowRight").1 (by decide)⟩,
    ⟨by decide, (C7_throw_boundary [⟨5, true⟩] 3 "ArrowRight").2.2.1 (by decide)⟩,
    ⟨by decide, by decide,
      (C7_throw_boundary [⟨0, false⟩] 1 "ArrowRight").2.2.2 (by decide) (by decide)
        (by decide)⟩⟩

/-! ## Navigator refinement: helper lemmas -/

theorem findIndexJS_cons (x : Nat) (rest : List Nat) (e : Nat) :
    findIndexJS (x :: rest) e =
      if x = e then 0
      else if findIndexJS rest e = -1 then -1 else findIndexJS rest e + 1 := rfl

theorem findIndexJS_not_mem {l : List Nat} {e : Nat} (h : e ∉ l) :
    findIndexJS l e = -1 := by
  induction l with
  | nil => rfl
  | cons x rest ih =>
    rw [findIndexJS_cons]
    have hx : ¬x = e := fun hxe => h (hxe ▸ List.mem_cons_self x rest)
    have hrest : e ∉ rest := fun hm => h (List.mem_cons_of_mem x hm)
    rw [if_neg hx, ih hrest, if_pos rfl]

theorem findIndexJS_mem {l : List Nat} {e : Nat} (h : e ∈ l) :
    ∃ i : Nat, findIndexJS l e = (i : Int) ∧ l.get? i = some e := by
  induction l with
  | nil => exact absurd h (List.not_mem_nil e)
  | cons x rest ih =>
    by_cases hx : x = e
    · exact ⟨0, by rw [findIndexJS_cons, if_pos hx]; rfl, by rw [hx]; rfl⟩
    · have he : e ∈ rest := by
        rcases List.mem_cons.mp h with h' | h'
        · exact absurd h'.symm hx
        · exact h'
      obtain ⟨i, hfi, hg⟩ := ih he
      refine ⟨i + 1, ?_, by simpa using hg⟩
      rw [findIndexJS_cons, if_neg hx, hfi, if_neg (by omega)]
      push_cast
      ring

theorem findIndexJS_get? {l : List Nat} {e : Nat} {i : Nat}
    (hnd : l.Nodup) (hg : l.get? i = some e) :
    findIndexJS l e = (i : Int) := by
  induction l generalizing i with
  | nil => simp [List.get?] at hg
  | cons x rest ih =>
    rw [List.nodup_cons] at hnd
    cases i with
    | zero =>
      have hx : x = e := by simpa [List.get?] using hg
      rw [findIndexJS_cons, if_pos hx]
      rfl
    | succ i =>
      rw [List.get?_cons_succ] at hg
      have he : e ∈ rest := List.get?_mem hg
      have hx : ¬x = e := fun hxe => hnd.1 (hxe ▸ he)
      rw [findIndexJS_cons, if_neg hx, ih hnd.2 hg, if_neg (by omega)]
      push_cast
      ring

theorem lastMatchFrom_cons (t : Option Nat) (d : Descendant) (rest : List Descendant) (k : Nat) :
    lastMatchFrom t (d :: rest) k =
      if lastMatchFrom t rest (k + 1) ≠ -1 then lastMatchFrom t rest (k + 1)
      else if some d.element = t then (k : Int) else -1 := rfl

theorem lastMatchFrom_eq_neg {ds : List Descendant} {t : Option Nat}
    (h : ∀ d ∈ ds, some d.element ≠ t) : ∀ k, lastMatchFrom t ds k = -1 := by
  induction ds with
  | nil => intro k; rfl
  | cons d rest ih =>
    intro k
    rw [lastMatchFrom_cons, ih (fun d' hd' => h d' (List.mem_cons_of_mem d hd')) (k + 1)]
    simp [h d (List.mem_cons_self d rest)]

theorem lastMatchFrom_get? {ds : List Descendant} {j : Nat} {dj : Descendant}
    (hnd : (ds.map (fun d => d.element)).Nodup) (hg : ds.get? j = some dj) :
    ∀ k, lastMatchFrom (some dj.element) ds k = (k : Int) + (j : Int) := by
  induction ds generalizing j with
  | nil => simp [List.get?] at hg
  | cons d rest ih =>
    rw [List.map_cons, List.nodup_cons] at hnd
    intro k
    cases j with
    | zero =>
      have hd : d = dj := by simpa [List.get?] using hg
      have hrest : lastMatchFrom (some dj.element) rest (k + 1) = -1 := by
        refine lastMatchFrom_eq_neg (fun d' hd' hcontra => hnd.1 ?_) (k + 1)
        rw [hd, ← Option.some_inj.mp hcontra]
        exact List.mem_map_of_mem (fun d => d.element) hd'
      rw [lastMatchFrom_cons, hrest]
      simp [hd]
    | succ j =>
      rw [List.get?_cons_succ] at hg
      have hr := ih hnd.2 hg (k + 1)
      rw [lastMatchFrom_cons, hr, if_pos (by push_cast; omega)]
      push_cast
      ring

/-! ## Enabled-index bookkeeping -/

theorem enabledIdxFrom_cons_disabled {d : Descendant} (rest : List Descendant)
    (hd : d.disabled = true) (k : Nat) :
    enabledIdxFrom (d :: rest) k = enabledIdxFrom rest (k + 1) := by
  simp [enabledIdxFrom, hd]

theorem enabledIdxFrom_cons_enabled {d : Descendant} (rest : List Descendant)
    (hd : d.disabled = false) (k : Nat) :
    enabledIdxFrom (d :: rest) k = k :: enabledIdxFrom rest (k + 1) := by
  simp [enabledIdxFrom, hd]

theorem enabledIdxFrom_shift (ds : List Descendant) :
    ∀ k, enabledIdxFrom ds k = (enabledIdxFrom ds 0).map (· + k) := by
  induction ds with
  | nil => intro k; rfl
  | cons d rest ih =>
    intro k
    cases hd : d.disabled
    · rw [enabledIdxFrom_cons_enabled rest hd k, enabledIdxFrom_cons_enabled rest hd 0,
        ih (k + 1), ih 1, List.map_cons, List.map_map]
      refine congrArg₂ _ (by omega) ?_
      refine List.map_congr_left fun a _ => ?_
      show a + (k + 1) = a + 1 + k
      omega
    · rw [enabledIdxFrom_cons_disabled rest hd k, enabledIdxFrom_cons_disabled rest hd 0,
        ih (k + 1), ih 1, List.map_map]
      refine List.map_congr_left fun a _ => ?_
      show a + (k + 1) = a + 1 + k
      omega

theorem enabledIdx_cons (d : Descendant) (rest : List Descendant) :
    enabledIdx (d :: rest) =
      if d.disabled then (enabledIdx rest).map (· + 1)
      else 0 :: (enabledIdx rest).map (· + 1) := by
  unfold enabledIdx
  cases hd : d.disabled
  · rw [enabledIdxFrom_cons_enabled rest hd 0, enabledIdxFrom_shift rest 1,
      if_neg Bool.false_ne_true]
  · rw [enabledIdxFrom_cons_disabled rest hd 0, enabledIdxFrom_shift rest 1,
      if_pos rfl]

theorem mem_enabledIdx (ds : List Descendant) (n : Nat) :
    n ∈ enabledIdx ds ↔ ∃ d, ds.get? n = some d ∧ d.disabled = false := by
  induction ds generalizing n with
  | nil => simp [enabledIdx, enabledIdxFrom, List.get?]
  | cons d rest ih =>
    rw [enabledIdx_cons]
    cases hd : d.disabled <;> cases n <;>
      simp [hd, List.mem_map, List.get?, ih]

theorem enabledIdx_nodup (ds : List Descendant) : (enabledIdx ds).Nodup := by
  induction ds with
  | nil => simp [enabledIdx, enabledIdxFrom]
  | cons d rest ih =>
    rw [enabledIdx_cons]
    have hmap : ((enabledIdx rest).map (· + 1)).Nodup := ih.map (add_left_injective 1)
    cases d.disabled
    · simp only [if_neg Bool.false_ne_true]
      rw [List.nodup_cons]
      exact ⟨by simp, hmap⟩
    · simpa using hmap

theorem elemAtD_cons_succ (d : Descendant) (rest : List Descendant) (n : Nat) :
    elemAtD (d :: rest) (n + 1) = elemAtD rest n := rfl

theorem focusNodes_cons_enabled {d : Descendant} (rest : List Descendant)
    (hd : d.disabled = false) :
    focusNodes (d :: rest) = d.element :: focusNodes rest := by
  simp [focusNodes, List.filter_cons, hd]

theorem focusNodes_cons_disabled {d : Descendant} (rest : List Descendant)
    (hd : d.disabled = true) :
    focusNodes (d :: rest) = focusNodes rest := by
  simp [focusNodes, List.filter_cons, hd]

theorem focusNodes_eq_map (ds : List Descendant) :
    focusNodes ds = (enabledIdx ds).map (elemAtD ds) := by
  induction ds with
  | nil => rfl
  | cons d rest ih =>
    rw [enabledIdx_cons]
    have hcomp : ((elemAtD (d :: rest)) ∘ (· + 1)) = elemAtD rest :=
      funext fun n => elemAtD_cons_succ d rest n
    cases hd : d.disabled
    · rw [focusNodes_cons_enabled rest hd, if_neg Bool.false_ne_true,
        List.map_cons, List.map_map, hcomp, ih]
      rfl
    · rw [focusNodes_cons_disabled rest hd, if_pos rfl, List.map_map, hcomp, ih]

theorem focusNodes_nodup {ds : List Descendant}
    (hnd : (ds.map (fun d => d.element)).Nodup) : (focusNodes ds).Nodup := by
  have h : (focusNodes ds).Sublist (ds.map (fun d => d.element)) := by
    unfold focusNodes
    exact (List.filter_sublist ds).map (fun d => d.element)
  exact List.Nodup.sublist h hnd

/-! ## Bridging the loop to the enabled-subset view -/

theorem elemAt?_natCast (l : List Nat) (n : Nat) : elemAt? l (n : Int) = l.get? n := by
  unfold elemAt?
  rw [if_neg (by omega), Int.toNat_natCast]

theorem elemAt?_neg {l : List Nat} {i : Int} (h : i < 0) : elemAt? l i = none := by
  unfold elemAt?
  rw [if_pos h]

theorem mem_enabledIdx_get {ds : List Descendant} {n : Nat} (h : n ∈ enabledIdx ds) :
    ∃ d, ds.get? n = some d ∧ d.disabled = false ∧ elemAtD ds n = d.element := by
  obtain ⟨d, hg, hd⟩ := (mem_enabledIdx ds n).mp h
  refine ⟨d, hg, hd, ?_⟩
  unfold elemAtD
  rw [hg]

theorem lastMatch_at_enabledIdx {ds : List Descendant}
    (hnd : (ds.map (fun d => d.element)).Nodup) {p n : Nat}
    (hEp : (enabledIdx ds).get? p = some n) :
    lastMatchFrom (elemAt? (focusNodes ds) (p : Int)) ds 0 = (n : Int) := by
  obtain ⟨dn, hg, _, he⟩ := mem_enabledIdx_get (List.get?_mem hEp)
  have hfns : (focusNodes ds).get? p = some dn.element := by
    rw [focusNodes_eq_map, List.get?_map, hEp]
    simp [he]
  rw [elemAt?_natCast, hfns]
  simpa using lastMatchFrom_get? hnd hg 0

theorem lastMatch_none (ds : List Descendant) {i : Int}
    (hi : elemAt? (focusNodes ds) i = none) :
    lastMatchFrom (elemAt? (focusNodes ds) i) ds 0 = -1 := by
  rw [hi]
  exact lastMatchFrom_of_none ds 0

theorem element_not_mem_focusNodes {ds : List Descendant} {sel : Nat} {dSel : Descendant}
    (hnd : (ds.map (fun d => d.element)).Nodup)
    (hg : ds.get? sel = some dSel) (hd : dSel.disabled = true) :
    dSel.element ∉ focusNodes ds := by
  intro hmem
  unfold focusNodes at hmem
  obtain ⟨d', hd', he'⟩ := List.mem_map.mp hmem
  obtain ⟨hd'mem, hd'en⟩ := List.mem_filter.mp hd'
  obtain ⟨j, hj⟩ := List.get?_of_mem hd'mem
  have hmapj : (ds.map (fun d => d.element)).get? j = some dSel.element := by
    rw [List.get?_map, hj]
    simp [he']
  have hmapsel : (ds.map (fun d => d.element)).get? sel = some dSel.element := by
    rw [List.get?_map, hg]
    rfl
  have hjlen : j < (ds.map (fun d => d.element)).length :=
    (List.get?_eq_some.mp hmapj).1
  have hjsel : j = sel := List.get?_inj hjlen hnd (hmapj.trans hmapsel.symm)
  subst hjsel
  rw [hj] at hg
  rw [Option.some_inj.mp hg, hd] at hd'en
  simp at hd'en

theorem not_mem_enabledIdx_of_disabled {ds : List Descendant} {sel : Nat} {dSel : Descendant}
    (hg : ds.get? sel = some dSel) (hd : dSel.disabled = true) :
    sel ∉ enabledIdx ds := by
  intro hmem
  obtain ⟨d, hg', hd'⟩ := (mem_enabledIdx ds sel).mp hmem
  rw [hg] at hg'
  rw [← Option.some_inj.mp hg', hd] at hd'
  simp at hd'

/-- `getFocusIndicesCore` with its let-bindings expanded. -/
theorem getFocusIndicesCore_eq (ds : List Descendant) (e : Nat) :
    getFocusIndicesCore ds e =
      { first := lastMatchFrom (elemAt? (focusNodes ds) 0) ds 0
        last := lastMatchFrom (elemAt? (focusNodes ds) (((focusNodes ds).length : Int) - 1)) ds 0
        prev :=
          if lastMatchFrom (elemAt? (focusNodes ds) (findIndexJS (focusNodes ds) e - 1)) ds 0 = -1
          then lastMatchFrom (elemAt? (focusNodes ds) (((focusNodes ds).length : Int) - 1)) ds 0
          else lastMatchFrom (elemAt? (focusNodes ds) (findIndexJS (focusNodes ds) e - 1)) ds 0
        next :=
          if lastMatchFrom (elemAt? (focusNodes ds) (findIndexJS (focusNodes ds) e + 1)) ds 0 = -1
          then lastMatchFrom (elemAt? (focusNodes ds) 0) ds 0
          else lastMatchFrom (elemAt? (focusNodes ds) (findIndexJS (focusNodes ds) e + 1)) ds 0 } :=
  rfl

/-- `specNext` with its let-binding expanded. -/
theorem specNext_eq (ds : List Descendant) (sel : Nat) :
    specNext ds sel =
      if findIndexJS (enabledIdx ds) sel = -1 then specFirst ds
      else
        match elemAt? (enabledIdx ds) (findIndexJS (enabledIdx ds) sel + 1) with
        | some n => (n : Int)
        | none => specFirst ds :=
  rfl

/-- `specPrev` with its let-binding expanded. -/
theorem specPrev_eq (ds : List Descendant) (sel : Nat) :
    specPrev ds sel =
      if findIndexJS (enabledIdx ds) sel ≤ 0 then specLast ds
      else
        match elemAt? (enabledIdx ds) (findIndexJS (enabledIdx ds) sel - 1) with
        | some n => (n : Int)
        | none => specLast ds :=
  rfl

/-- The source loop agrees with the spec's enabled-subset wrap-around
navigator on every registry with pairwise-distinct elements, an in-range
selected index, and at least one enabled tab. -/
theorem getFocusIndicesCore_eq_spec (ds : List Descendant) (sel : Nat) (dSel : Descendant)
    (hg : ds.get? sel = some dSel)
    (hnd : (ds.map (fun d => d.element)).Nodup)
    (hne : enabledIdx ds ≠ []) :
    getFocusIndicesCore ds dSel.element =
      { first := specFirst ds, last := specLast ds,
        prev := specPrev ds sel, next := specNext ds sel } := by
  obtain ⟨n0, E', hE⟩ : ∃ n0 E', enabledIdx ds = n0 :: E' := by
    cases hEc : enabledIdx ds with
    | nil => exact absurd hEc hne
    | cons a b => exact ⟨a, b, rfl⟩
  have hE0 : (enabledIdx ds).get? 0 = some n0 := by rw [hE]; rfl
  have hfirstSpec : specFirst ds = (n0 : Int) := by
    unfold specFirst
    rw [hE]
    rfl
  have hlenE : 1 ≤ (enabledIdx ds).length := by rw [hE]; simp
  have hlenfns : (focusNodes ds).length = (enabledIdx ds).length := by
    rw [focusNodes_eq_map]
    exact List.length_map _ _
  obtain ⟨nl, hEl⟩ : ∃ nl, (enabledIdx ds).get? ((enabledIdx ds).length - 1) = some nl := by
    have hlt : (enabledIdx ds).length - 1 < (enabledIdx ds).length := by omega
    exact ⟨(enabledIdx ds).get ⟨_, hlt⟩, List.get?_eq_get hlt⟩
  have hlastSpec : specLast ds = (nl : Int) := by
    unfold specLast
    rw [List.getLast?_eq_get?, hEl]
  have hfirstCode : lastMatchFrom (elemAt? (focusNodes ds) 0) ds 0 = (n0 : Int) := by
    simpa using lastMatch_at_enabledIdx hnd hE0
  have hIdxLast :
      ((focusNodes ds).length : Int) - 1 = (((enabledIdx ds).length - 1 : Nat) : Int) := by
    rw [hlenfns]
    omega
  have hlastCode :
      lastMatchFrom (elemAt? (focusNodes ds) (((focusNodes ds).length : Int) - 1)) ds 0 =
        (nl : Int) := by
    rw [hIdxLast]
    exact lastMatch_at_enabledIdx hnd hEl
  rw [getFocusIndicesCore_eq, FocusIndices.mk.injEq]
  refine ⟨by rw [hfirstCode, hfirstSpec], by rw [hlastCode, hlastSpec], ?_, ?_⟩
  · -- prev
    cases hdis : dSel.disabled
    · -- enabled selected tab
      have hmemE : sel ∈ enabledIdx ds := (mem_enabledIdx ds sel).mpr ⟨dSel, hg, hdis⟩
      obtain ⟨p, hfiE, hEp⟩ := findIndexJS_mem hmemE
      have hplen : p < (enabledIdx ds).length := (List.get?_eq_some.mp hEp).1
      have helemD : elemAtD ds sel = dSel.element := by
        unfold elemAtD
        rw [hg]
      have hfnsp : (focusNodes ds).get? p = some dSel.element := by
        rw [focusNodes_eq_map, List.get?_map, hEp]
        simp [helemD]
      have hsfi : findIndexJS (focusNodes ds) dSel.element = (p : Int) :=
        findIndexJS_get? (focusNodes_nodup hnd) hfnsp
      rw [hsfi, specPrev_eq, hfiE]
      cases p with
      | zero =>
        have hnone : elemAt? (focusNodes ds) (((0 : Nat) : Int) - 1) = none :=
          elemAt?_neg (by norm_num)
        rw [lastMatch_none ds hnone, if_pos rfl, hlastCode, if_pos (by norm_num), hlastSpec]
      | succ q =>
        have hidx : ((q + 1 : Nat) : Int) - 1 = ((q : Nat) : Int) := by push_cast; ring
        have hqlen : q < (enabledIdx ds).length := by omega
        have hEq : (enabledIdx ds).get? q = some ((enabledIdx ds).get ⟨q, hqlen⟩) :=
          List.get?_eq_get hqlen
        rw [hidx, lastMatch_at_enabledIdx hnd hEq, if_neg (by omega),
          if_neg (by push_cast; omega), elemAt?_natCast, hEq]
    · -- disabled selected tab: not found among focus nodes
      have hsfi : findIndexJS (focusNodes ds) dSel.element = -1 :=
        findIndexJS_not_mem (element_not_mem_focusNodes hnd hg hdis)
      have hkE : findIndexJS (enabledIdx ds) sel = -1 :=
        findIndexJS_not_mem (not_mem_enabledIdx_of_disabled hg hdis)
      have hnone : elemAt? (focusNodes ds) ((-1 : Int) - 1) = none :=
        elemAt?_neg (by norm_num)
      rw [hsfi, specPrev_eq, hkE, lastMatch_none ds hnone, if_pos rfl, hlastCode,
        if_pos (by norm_num), hlastSpec]
  · -- next
    cases hdis : dSel.disabled
    · have hmemE : sel ∈ enabledIdx ds := (mem_enabledIdx ds sel).mpr ⟨dSel, hg, hdis⟩
      obtain ⟨p, hfiE, hEp⟩ := findIndexJS_mem hmemE
      have helemD : elemAtD ds sel = dSel.element := by
        unfold elemAtD
        rw [hg]
      have hfnsp : (focusNodes ds).get? p = some dSel.element := by
        rw [focusNodes_eq_map, List.get?_map, hEp]
        simp [helemD]
      have hsfi : findIndexJS (focusNodes ds) dSel.element = (p : Int) :=
        findIndexJS_get? (focusNodes_nodup hnd) hfnsp
      have hidx : ((p : Nat) : Int) + 1 = ((p + 1 : Nat) : Int) := by push_cast; ring
      rw [hsfi, specNext_eq, hfiE, hidx]
      have hp' : ¬((p : Int) = -1) := by omega
      cases hp1 : (enabledIdx ds).get? (p + 1) with
      | some n1 =>
        have hn1 : ¬((n1 : Int) = -1) := by omega
        rw [lastMatch_at_enabledIdx hnd hp1, if_neg hn1, if_neg hp',
          elemAt?_natCast, hp1]
      | none =>
        have hnone : elemAt? (focusNodes ds) ((p + 1 : Nat) : Int) = none := by
          rw [elemAt?_natCast]
          apply List.get?_eq_none.mpr
          rw [hlenfns]
          exact List.get?_eq_none.mp hp1
        rw [lastMatch_none ds hnone, if_pos rfl, hfirstCode, if_neg hp',
          elemAt?_natCast, hp1, hfirstSpec]
    · have hsfi : findIndexJS (focusNodes ds) dSel.element = -1 :=
        findIndexJS_not_mem (element_not_mem_focusNodes hnd hg hdis)
      have hkE : findIndexJS (enabledIdx ds) sel = -1 :=
        findIndexJS_not_mem (not_mem_enabledIdx_of_disabled hg hdis)
      have hzero : (-1 : Int) + 1 = ((0 : Nat) : Int) := by norm_num
      rw [hsfi, specNext_eq, hkE, hzero, lastMatch_at_enabledIdx hnd hE0,
        if_neg (by omega), if_pos rfl, hfirstSpec]

theorem dsGet?_natCast (ds : List Descendant) (n : Nat) :
    dsGet? ds (n : Int) = ds.get? n := by
  unfold dsGet?
  rw [if_neg (by omega), Int.toNat_natCast]

theorem dsGet?_pos {ds : List Descendant} {sel : Int} {d : Descendant}
    (h : dsGet? ds sel = some d) : 0 ≤ sel ∧ ds.get? sel.toNat = some d := by
  unfold dsGet? at h
  split at h
  · exact absurd h (by simp)
  · exact ⟨by omega, h⟩

/-- C2: over any registry with pairwise-distinct elements, an in-range
selected index and a nonempty enabled subset, the navigator computes the
spec's enabled-subset wrap-around targets: `next`/`prev` are the raw
indices of the enabled entries immediately after/before the current one,
wrapping to the first/last enabled entry when none follows/precedes (and
to first/last when the current entry is not in the enabled subset); the
ArrowRight and ArrowLeft handlers request exactly these indices. -/
theorem C2_keyboard_navigation_wraps (ds : List Descendant) (sel : Nat) (dSel : Descendant)
    (hg : ds.get? sel = some dSel)
    (hnd : (ds.map (fun d => d.element)).Nodup)
    (hne : enabledIdx ds ≠ []) :
    getFocusIndicesCore ds dSel.element =
      { first := specFirst ds, last := specLast ds,
        prev := specPrev ds sel, next := specNext ds sel } ∧
    handleKeyDown ds (sel : Int) "ArrowRight" =
      some { preventedDefault := false, selectRequest := some (specNext ds sel),
             focusPanelRequested := false } ∧
    handleKeyDown ds (sel : Int) "ArrowLeft" =
      some { preventedDefault := false, selectRequest := some (specPrev ds sel),
             focusPanelRequested := false } := by
  have hmain := getFocusIndicesCore_eq_spec ds sel dSel hg hnd hne
  have hgfi : getFocusIndices ds (sel : Int) = some (getFocusIndicesCore ds dSel.element) := by
    unfold getFocusIndices
    rw [dsGet?_natCast, hg]
  refine ⟨hmain, ?_, ?_⟩ <;> simp [handleKeyDown, hgfi, hmain]

/-- Witness for C2 at the spec's scenario: four tabs, tab 1 disabled
(enabled raw indices [0,2,3]): from 0 ArrowRight requests 2; from 3 it
wraps to 0; from 0 ArrowLeft wraps to 3. -/
theorem C2_witness :
    (([⟨20, false⟩, ⟨21, true⟩, ⟨22, false⟩, ⟨23, false⟩] :
        List Descendant).get? 0 = some ⟨20, false⟩ ∧
      (([⟨20, false⟩, ⟨21, true⟩, ⟨22, false⟩, ⟨23, false⟩] :
        List Descendant).map (fun d => d.element)).Nodup ∧
      enabledIdx [⟨20, false⟩, ⟨21, true⟩, ⟨22, false⟩, ⟨23, false⟩] ≠ []) ∧
    handleKeyDown [⟨20, false⟩, ⟨21, true⟩, ⟨22, false⟩, ⟨23, false⟩] ((0 : Nat) : Int)
        "ArrowRight" =
      some { preventedDefault := false,
             selectRequest :=
               some (specNext [⟨20, false⟩, ⟨21, true⟩, ⟨22, false⟩, ⟨23, false⟩] 0),
             focusPanelRequested := false } ∧
    specNext [⟨20, false⟩, ⟨21, true⟩, ⟨22, false⟩, ⟨23, false⟩] 0 = 2 ∧
    specNext [⟨20, false⟩, ⟨21, true⟩, ⟨22, false⟩, ⟨23, false⟩] 3 = 0 ∧
    specPrev [⟨20, false⟩, ⟨21, true⟩, ⟨22, false⟩, ⟨23, false⟩] 0 = 3 ∧
    (getFocusIndicesCore [⟨20, false⟩, ⟨21, true⟩, ⟨22, false⟩, ⟨23, false⟩] 23).next = 0 :=
  ⟨⟨by decide, by decide, by decide⟩,
    (C2_keyboard_navigation_wraps [⟨20, false⟩, ⟨21, true⟩, ⟨22, false⟩, ⟨23, false⟩] 0
      ⟨20, false⟩ (by decide) (by decide) (by decide)).2.1,
    by decide, by decide, by decide, by decide⟩

/-- C3: when an uncontrolled instance's selected descendant exists and is
disabled, the layout effect overrides the selection with the navigator's
`next` target, which — the current entry not being in the enabled
subset — is the first enabled tab; the override never touches
`userInteracted`, so the update effect (flag still false) moves no
focus. -/
theorem C3_disabled_selection_corrected (ds : List Descendant) (sel : Int) (dSel : Descendant)
    (hg : dsGet? ds sel = some dSel) (hd : dSel.disabled = true)
    (hnd : (ds.map (fun d => d.element)).Nodup) (hne : enabledIdx ds ≠ []) :
    tabListLayoutEffect false ds sel = specNext ds sel.toNat ∧
    specNext ds sel.toNat = specFirst ds ∧
    tabFocusEffect false true true false =
      { focusMoved := false, userInteractedAfter := false } := by
  have hg' : ds.get? sel.toNat = some dSel := (dsGet?_pos hg).2
  have hmain := getFocusIndicesCore_eq_spec ds sel.toNat dSel hg' hnd hne
  have hkE : findIndexJS (enabledIdx ds) sel.toNat = -1 :=
    findIndexJS_not_mem (not_mem_enabledIdx_of_disabled hg' hd)
  refine ⟨?_, ?_, by decide⟩
  · simp [tabListLayoutEffect, hg, hd, hmain]
  · rw [specNext_eq, hkE, if_pos rfl]

/-- Witness for C3 at the spec's scenario: tabs [disabled, enabled,
enabled], uncontrolled, selection 0 → corrected to 1. -/
theorem C3_witness :
    (dsGet? [⟨10, true⟩, ⟨11, false⟩, ⟨12, false⟩] 0 = some ⟨10, true⟩ ∧
      (⟨10, true⟩ : Descendant).disabled = true ∧
      (([⟨10, true⟩, ⟨11, false⟩, ⟨12, false⟩] :
        List Descendant).map (fun d => d.element)).Nodup ∧
      enabledIdx [⟨10, true⟩, ⟨11, false⟩, ⟨12, false⟩] ≠ []) ∧
    tabListLayoutEffect false [⟨10, true⟩, ⟨11, false⟩, ⟨12, false⟩] 0 =
      specNext [⟨10, true⟩, ⟨11, false⟩, ⟨12, false⟩] ((0 : Int)).toNat ∧
    tabListLayoutEffect false [⟨10, true⟩, ⟨11, false⟩, ⟨12, false⟩] 0 = 1 :=
  ⟨⟨by decide, by decide, by decide, by decide⟩,
    (C3_disabled_selection_corrected [⟨10, true⟩, ⟨11, false⟩, ⟨12, false⟩] 0 ⟨10, true⟩
      (by decide) (by decide) (by decide) (by decide)).1,
    by decide⟩

end ReachTabs
